import Mathlib

/-!
Verification of the incremental device synchronization and live-preview
dispatch engine of the nativescript-cli repository.

The definitions below are shallow embeddings of the TypeScript sources:
* `PreviewAppLiveSyncService` (preview-app-livesync-service):
  single-flight device initialization, per-platform sync coalescing,
  file payload construction with exclusion filters.
* `AndroidDeviceLiveSyncServiceBase` (android-device-livesync-service-base):
  `transferFiles`, `transferFilesCore`, `getLocalToDevicePathsToTransfer`,
  `getChangedLocalToDevicePaths`.
* `HmrStatusService`: the HMR status log rule and the bounded polling wait.
* `LogParserService`: rule registration and the per-line rule dispatcher.

Asynchronous/stateful code is embedded by explicit state passing; JavaScript
exceptions are modelled by `Except`-style results or an explicit "threw"
flag where the mutated state must remain observable (JS objects are mutated
in place, so state changes made before a throw survive the throw).
-/

set_option autoImplicit false

namespace NsCli

/-! ## Generic list helpers used throughout the embedding -/

/-- Lookup in an association list (models a JS dictionary keyed by string). -/
def lookupStr (l : List (String × String)) (k : String) : Option String :=
  (l.find? (fun e => e.1 = k)).map (fun e => e.2)

/-- Insert-or-overwrite in an association list keyed by string (JS object
property assignment: overwrite the existing entry, else append). -/
def setKey {α : Type} : List (String × α) → String → α → List (String × α)
  | [], k, v => [(k, v)]
  | e :: es, k, v => if e.1 = k then (k, v) :: es else e :: setKey es k v

/-- Lookup in a generic association list keyed by string. -/
def getKey {α : Type} (l : List (String × α)) (k : String) : Option α :=
  (l.find? (fun e => e.1 = k)).map (fun e => e.2)

/-! ## Session Initializer (single-flight device initialization)

Embeds `PreviewAppLiveSyncService.initialize` (test/project-service.ts
excerpt, lines 383-401).  The dictionary `deviceInitializationPromise`
maps a device id to the in-flight initialization promise; promises are
modelled by numeric identifiers.  The TypeScript:

  if (this.deviceInitializationPromise[device.id]) {
    return this.deviceInitializationPromise[device.id];
  }
  this.deviceInitializationPromise[device.id] = this.initializePreviewForDevice(data, device);
  try {
    const payloads = await this.deviceInitializationPromise[device.id];
    return payloads;
  } finally {
    this.deviceInitializationPromise[device.id] = null;
  }

A slot holding `null` is falsy, exactly like an absent slot, so the state
is an association list of the device ids whose slot holds a promise.
-/

/-- State of `deviceInitializationPromise`: device id to promise id. -/
def InitSlots : Type := List (String × Nat)

/-- Result of one call to the device-initialization entry point: the promise
the caller receives, whether `initializePreviewForDevice` was invoked by
this call, and the updated slot table (the state as it is while the
initialization is in flight). -/
def initDevice (slots : InitSlots) (deviceId : String) (freshPromise : Nat) :
    Nat × Bool × InitSlots :=
  match getKey slots deviceId with
  | some p => (p, false, slots)
  | none => (freshPromise, true, setKey slots deviceId freshPromise)

/-- The `finally` block: once the in-flight initialization settles (fulfilled
or rejected), the slot is reset to `null`, which reads as absent. -/
def completeInit (slots : InitSlots) (deviceId : String) : InitSlots :=
  slots.filter (fun e => !(e.1 = deviceId))

/-! ## Transfer Executor and Sync Planner

Embeds `AndroidDeviceLiveSyncServiceBase` (test/project-service.ts excerpt,
lines 559-613): `transferFiles`, `transferFilesCore`,
`getLocalToDevicePathsToTransfer` and `getChangedLocalToDevicePaths`.

Local-to-device path data is modelled by its local path (`getLocalPath()`),
hash tables by association lists.  The device file system
(`this.device.fileSystem` plus the device hash service) is modelled by the
stored hash file content together with an event trace recording the
transport-level operations in the order they were issued.  Transport
failure is modelled by a boolean `transportOk` oracle: a push that fails
throws, which surfaces as a `none` result, and the device state at the
point of the throw is returned unchanged from then on.
-/

/-- Transport-level operations issued against the device, in order. -/
inductive DevEvent where
  | deleteHashFile : DevEvent
  | transferDir (paths : List String) : DevEvent
  | transferFilesOn (paths : List String) : DevEvent
  | commitHashes (hashes : List (String × String)) : DevEvent
deriving DecidableEq, Repr

/-- Device-side state: the stored fingerprint (shasum) file, if any, and the
trace of transport operations performed so far. -/
structure DeviceFS where
  hashFile : Option (List (String × String))
  events : List DevEvent
deriving DecidableEq, Repr

/-- The `ITransferFilesOptions` fields read by the transfer code. -/
structure TransferOptions where
  force : Bool
  isFullSync : Bool
deriving DecidableEq, Repr

/-- `deviceHashService.getShasumsFromDevice()`: reads the stored table
(`null` when the hash file is absent). -/
def getShasumsFromDevice (fs : DeviceFS) : Option (List (String × String)) :=
  fs.hashFile

/-- `this.device.fileSystem.deleteFile(hashFileDevicePath, appIdentifier)`:
drops the stored fingerprint file. -/
def deleteDeviceHashFile (fs : DeviceFS) : DeviceFS :=
  { hashFile := none, events := fs.events ++ [DevEvent.deleteHashFile] }

/-- Abstract platform-specific `transferDirectoryOnDevice`: pushes the whole
directory.  On transport failure it throws, leaving the device state as it
was (`false` = exception escaped). -/
def transferDirectoryOnDevice (transportOk : Bool) (fs : DeviceFS)
    (paths : List String) : DeviceFS × Bool :=
  if transportOk then
    ({ fs with events := fs.events ++ [DevEvent.transferDir paths] }, true)
  else
    (fs, false)

/-- Abstract platform-specific `transferFilesOnDevice`: pushes the given
files; throws on transport failure. -/
def transferFilesOnDevice (transportOk : Bool) (fs : DeviceFS)
    (paths : List String) : DeviceFS × Bool :=
  if transportOk then
    ({ fs with events := fs.events ++ [DevEvent.transferFilesOn paths] }, true)
  else
    (fs, false)

/-- Modelled from the spec: `deviceHashService.getChangedShasums(oldHashes,
currentHashes)` is repository code outside the given excerpt.  Per the spec
(section 4.1), a path is changed when it is absent from the stored table or
its stored fingerprint differs from the current one. -/
def getChangedShasums (oldHashes currentHashes : List (String × String)) :
    List (String × String) :=
  currentHashes.filter (fun e =>
    match lookupStr oldHashes e.1 with
    | some h => !(h = e.2)
    | none => true)

/-- `getChangedLocalToDevicePaths`: keys of the changed shasums, used to keep
only the local paths whose fingerprint changed
(`changedFiles.indexOf(localPath) >= 0`). -/
def getChangedLocalToDevicePaths (fs : DeviceFS)
    (localToDevicePaths : List String)
    (currentHashes : List (String × String)) : List String :=
  let oldHashes := (getShasumsFromDevice fs).getD []
  let changedHashes := getChangedShasums oldHashes currentHashes
  let changedFiles := changedHashes.map (fun e => e.1)
  localToDevicePaths.filter (fun p => changedFiles.contains p)

/-- `getLocalToDevicePathsToTransfer`: with `force` or without `isFullSync`
the whole provided list is returned; only a non-forced full sync diffs
against the stored device shasums. -/
def getLocalToDevicePathsToTransfer (fs : DeviceFS)
    (localToDevicePaths : List String)
    (currentHashes : List (String × String))
    (options : TransferOptions) : List String :=
  if options.force || !options.isFullSync then
    localToDevicePaths
  else
    getChangedLocalToDevicePaths fs localToDevicePaths currentHashes

/-- `transferFilesCore`: on `force && isFullSync` delete the device hash file
then push the whole directory; otherwise push the computed transfer set.
`none` means the transport threw and the exception propagates. -/
def transferFilesCore (transportOk : Bool) (fs : DeviceFS)
    (localToDevicePaths : List String)
    (currentHashes : List (String × String))
    (options : TransferOptions) : Option (List String) × DeviceFS :=
  if options.force && options.isFullSync then
    let fs1 := deleteDeviceHashFile fs
    match transferDirectoryOnDevice transportOk fs1 localToDevicePaths with
    | (fs2, true) => (some localToDevicePaths, fs2)
    | (fs2, false) => (none, fs2)
  else
    let toTransfer :=
      getLocalToDevicePathsToTransfer fs localToDevicePaths currentHashes options
    match transferFilesOnDevice transportOk fs toTransfer with
    | (fs2, true) => (some toTransfer, fs2)
    | (fs2, false) => (none, fs2)

/-- Modelled from the spec: the merge performed by
`updateHashesOnDevice` (repository code outside the excerpt) replaces or
adds entries for exactly the paths given (spec section 4.1 `commit`). -/
def mergeHashes (oldHashes newHashes : List (String × String)) :
    List (String × String) :=
  oldHashes.filter (fun e => !(newHashes.any (fun n => n.1 = e.1))) ++ newHashes

/-- `this.device.fileSystem.updateHashesOnDevice(currentHashes, appId)`:
commits the current fingerprints to the device hash file. -/
def updateHashesOnDevice (fs : DeviceFS)
    (hashes : List (String × String)) : DeviceFS :=
  { hashFile := some (mergeHashes (fs.hashFile.getD []) hashes),
    events := fs.events ++ [DevEvent.commitHashes hashes] }

/-- `transferFiles`: generate the current hashes, run `transferFilesCore`,
and only if it returned (no throw) commit the hashes with
`updateHashesOnDevice`.  A transport throw inside `transferFilesCore`
propagates out before the commit line runs. -/
def transferFiles (transportOk : Bool) (fs : DeviceFS)
    (localToDevicePaths : List String) (hashOf : String → String)
    (options : TransferOptions) : Option (List String) × DeviceFS :=
  let currentHashes := localToDevicePaths.map (fun p => (p, hashOf p))
  match transferFilesCore transportOk fs localToDevicePaths currentHashes options with
  | (some transferred, fs1) => (some transferred, updateHashesOnDevice fs1 currentHashes)
  | (none, fs1) => (none, fs1)

/-! ## Platform Sync Scheduler (coalescing of mid-cycle sync requests)

Embeds the coalescing closure created in
`PreviewAppLiveSyncService.initializePreviewForDevice`
(test/project-service.ts excerpt, lines 403-414):

  const filesToSyncMap = {};
  let promise = Promise.resolve(null);
  const startSyncFilesTimeout = async (platform) => {
    await promise
      .then(async () => {
        promise = this.syncFilesForPlatformSafe(data, platform,
          { filesToSync: filesToSyncMap[platform], skipPrepare: true });
        await promise;
      });
    filesToSyncMap[platform] = [];
  };

The caller of the hook pushes changed paths into `filesToSyncMap[platform]`
and then invokes `startSyncFilesTimeout(platform)`.  The JavaScript promise
machinery is embedded by defunctionalising the two continuations that
occur, for one fixed platform:

* `thenCb` - the async callback passed to `.then`: attached to the promise
  stored in `promise` at call time; when its promise resolves it starts a
  new sync cycle with the files currently accumulated in the map
  (`syncFilesForPlatformSafe` reads `filesToSync` synchronously before its
  first await), stores the new cycle's promise into `promise`, and awaits
  it.
* `clearCb` - the continuation of the outer `await`: runs when the sync
  cycle started by the same call completes, and resets
  `filesToSyncMap[platform]` to `[]`.

Promises are numbered; each pending promise carries its queue of attached
continuations, run in attach order when it resolves (microtask FIFO).
Promise 0 is the sync cycle that is running when the requests arrive.
-/

/-- Defunctionalised continuations of `startSyncFilesTimeout`. -/
inductive SyncCont where
  | thenCb : SyncCont
  | clearCb : SyncCont
deriving DecidableEq, Repr

/-- Scheduler state: the per-platform accumulator `filesToSyncMap[platform]`,
the promise currently stored in the `promise` variable, the pending
continuations (promise id, continuation) in attach order, the next fresh
promise id, and the trace of sync cycles started so far (each with the
file list it was started with). -/
structure SchedState where
  filesMap : List String
  promiseVar : Nat
  conts : List (Nat × SyncCont)
  nextId : Nat
  executed : List (List String)
deriving DecidableEq, Repr

/-- Run one continuation.  `thenCb` starts the next sync cycle with the
currently accumulated files, reassigns the `promise` variable to the new
cycle and attaches the map-clearing continuation to it; `clearCb` resets
the accumulator. -/
def runSyncCont (s : SchedState) : SyncCont → SchedState
  | SyncCont.thenCb =>
      { filesMap := s.filesMap
        promiseVar := s.nextId
        conts := s.conts ++ [(s.nextId, SyncCont.clearCb)]
        nextId := s.nextId + 1
        executed := s.executed ++ [s.filesMap] }
  | SyncCont.clearCb =>
      { s with filesMap := [] }

/-- Resolve promise `p`: its attached continuations run in attach order. -/
def resolvePromise (s : SchedState) (p : Nat) : SchedState :=
  let toRun := (s.conts.filter (fun c => c.1 = p)).map (fun c => c.2)
  let rest := s.conts.filter (fun c => !(c.1 = p))
  toRun.foldl runSyncCont { s with conts := rest }

/-- A sync request arriving while the cycle held in `promise` is still
running: its changed paths are appended to the accumulator and
`startSyncFilesTimeout` attaches `thenCb` to the current `promise`. -/
def arriveRequest (s : SchedState) (changedPaths : List String) : SchedState :=
  { s with filesMap := s.filesMap ++ changedPaths
           conts := s.conts ++ [(s.promiseVar, SyncCont.thenCb)] }

/-- Initial state: one sync cycle (promise 0) is running, nothing is
accumulated. -/
def schedInit : SchedState :=
  { filesMap := [], promiseVar := 0, conts := [], nextId := 1, executed := [] }

/-- The scenario of spec section 4.4 / 8: the given requests all arrive
while cycle 0 is running; cycle 0 then completes, and afterwards every
sync cycle that was started is allowed to complete, in start order.
The result is the list of follow-up sync cycles that executed, each with
the file list it was started with. -/
def runBurstScenario (requests : List (List String)) : List (List String) :=
  let s1 := requests.foldl arriveRequest schedInit
  let s2 := resolvePromise s1 0
  let s3 := (List.range s2.nextId).foldl
    (fun s p => if p = 0 then s else resolvePromise s p) s2
  s3.executed

/-! ## Log Rule Dispatcher

Embeds `LogParserService` (unnamed source part, lines 103-141):
`addParseRule` and `processDeviceLogResponse`.  The rule dictionary is an
association list in registration order (lodash `_.forEach` over an object
visits string keys in insertion order).  A rule's regular expression is
embedded as a function from the line to the optional `matches` array; its
handler mutates a state of type `σ` in place and may throw (`true` in the
returned pair).  The dispatcher has no try/catch, so a throw aborts the
remaining rules and lines while earlier in-place state mutations survive.
-/

/-- JavaScript falsiness of an optional string parameter (absent or empty). -/
def strFalsy : Option String → Bool
  | none => true
  | some s => s = ""

/-- A registered log parse rule (`ILogParseRule`). -/
structure ParseRule (σ : Type) where
  name : String
  platform : Option String
  regex : List Char → Option (List String)
  handler : List String → String → σ → σ × Bool

/-- The guard of `processDeviceLogResponse`:
`!devicePlatform || !parseRule.platform ||
 parseRule.platform.toLowerCase() === devicePlatform.toLowerCase()`. -/
def platformRuleApplies (devicePlatform rulePlatform : Option String) : Bool :=
  strFalsy devicePlatform || strFalsy rulePlatform ||
    ((rulePlatform.getD "").toLower = (devicePlatform.getD "").toLower)

/-- `message.split("\n")` on character lists. -/
def splitLines : List Char → List (List Char)
  | [] => [[]]
  | c :: rest =>
    if c = '\n' then [] :: splitLines rest
    else
      match splitLines rest with
      | [] => [[c]]
      | l :: ls => (c :: l) :: ls

/-- The inner `_.forEach(this.parseRules, ...)` over one line: each rule
whose platform guard passes has its regex executed; on a match the handler
runs.  A handler throw (second component `true`) aborts the iteration. -/
def processLineRules {σ : Type} (deviceId : String)
    (devicePlatform : Option String) (line : List Char) :
    List (ParseRule σ) → σ → σ × Bool
  | [], s => (s, false)
  | r :: rs, s =>
    if platformRuleApplies devicePlatform r.platform then
      match r.regex line with
      | some ms =>
        match r.handler ms deviceId s with
        | (s1, true) => (s1, true)
        | (s1, false) => processLineRules deviceId devicePlatform line rs s1
      | none => processLineRules deviceId devicePlatform line rs s
    else
      processLineRules deviceId devicePlatform line rs s

/-- The outer `_.forEach(lines, ...)`: lines processed in order; a handler
throw aborts the remaining lines as well. -/
def processLinesLoop {σ : Type} (rules : List (ParseRule σ))
    (deviceId : String) (devicePlatform : Option String) :
    List (List Char) → σ → σ × Bool
  | [], s => (s, false)
  | l :: ls, s =>
    match processLineRules deviceId devicePlatform l rules s with
    | (s1, true) => (s1, true)
    | (s1, false) => processLinesLoop rules deviceId devicePlatform ls s1

/-- `processDeviceLogResponse(message, deviceIdentifier, devicePlatform)`. -/
def processDeviceLogResponse {σ : Type} (rules : List (ParseRule σ))
    (message : String) (deviceIdentifier : String)
    (devicePlatform : Option String) (s : σ) : σ × Bool :=
  processLinesLoop rules deviceIdentifier devicePlatform
    (splitLines message.toList) s

/-- `addParseRule(rule)`: `$errors.failWithoutHelp` throws when a rule with
the same name already exists (`none`); otherwise the rule is appended. -/
def addParseRule {σ : Type} (rules : List (ParseRule σ)) (r : ParseRule σ) :
    Option (List (ParseRule σ)) :=
  if rules.any (fun r0 => r0.name = r.name) then none
  else some (rules ++ [r])

/-! ## HMR Status Service

Embeds `HmrStatusService` (unnamed source part, lines 4-96).  The regular
expression

  HMR_STATUS_LOG_REGEX = /([a-z A-Z]*) hmr hash ([a-z0-9]*)\./

is embedded as an explicit matcher with JavaScript `RegExp.exec` semantics:
leftmost starting position; the first (greedy, backtracking) capture group
ranges over the character class of lowercase letters, space and uppercase
letters; then the literal " hmr hash "; then the second greedy group over
lowercase letters and digits; then a literal dot.  The second group never
needs backtracking because a dot is not in its character class, so the
maximal run either is followed by a dot or no length of the group matches.
-/

/-- Membership in the character class `[a-z A-Z]`. -/
def isClass1 (c : Char) : Bool :=
  ('a' ≤ c && c ≤ 'z') || c = ' ' || ('A' ≤ c && c ≤ 'Z')

/-- Membership in the character class `[a-z0-9]`. -/
def isClass2 (c : Char) : Bool :=
  ('a' ≤ c && c ≤ 'z') || ('0' ≤ c && c ≤ '9')

/-- The literal " hmr hash " between the two capture groups. -/
def litM : List Char := [' ', 'h', 'm', 'r', ' ', 'h', 'a', 's', 'h', ' ']

/-- Boolean test that the first list starts the second one. -/
def leadsWith : List Char → List Char → Bool
  | [], _ => true
  | a :: as, s =>
    match s with
    | [] => false
    | b :: bs => a = b && leadsWith as bs

/-- Attempt a match at the start of `s` with first group length `g1`:
the literal must follow, then the maximal `[a-z0-9]` run (group 2), then a
dot.  Returns the two captured groups. -/
def checkAt (s : List Char) (g1 : Nat) : Option (List Char × List Char) :=
  if leadsWith litM (s.drop g1) then
    let rest := s.drop (g1 + 10)
    let g2 := rest.takeWhile isClass2
    match rest.drop g2.length with
    | c :: _ => if c = '.' then some (s.take g1, g2) else none
    | [] => none
  else none

/-- Greedy backtracking for group 1: try the given length first, then
shorter ones. -/
def tryG1From (s : List Char) : Nat → Option (List Char × List Char)
  | 0 => checkAt s 0
  | g + 1 =>
    match checkAt s (g + 1) with
    | some r => some r
    | none => tryG1From s g

/-- Attempt a match anchored at the start of `s`: group 1 is a prefix of
the maximal `[a-z A-Z]` run, longest first. -/
def matchHere (s : List Char) : Option (List Char × List Char) :=
  tryG1From s ((s.takeWhile isClass1).length)

/-- `RegExp.exec`: leftmost match, scanning start positions left to right. -/
def hmrExecCore : List Char → Option (List Char × List Char)
  | [] => matchHere []
  | c :: rest =>
    match matchHere (c :: rest) with
    | some r => some r
    | none => hmrExecCore rest

/-- The `matches` array produced by `HMR_STATUS_LOG_REGEX.exec(line)`:
full match, group 1, group 2. -/
def hmrStatusLogRegexExec (line : List Char) : Option (List String) :=
  (hmrExecCore line).map (fun g =>
    [String.mk (g.1 ++ litM ++ g.2 ++ ['.']), String.mk g.1, String.mk g.2])

/-- JavaScript `String.prototype.trim` restricted to the space character
(the only whitespace the matched group can contain, since its character
class is `[a-z A-Z]`). -/
def jsTrim (s : String) : String :=
  String.mk
    (((s.toList.dropWhile (fun c => c = ' ')).reverse.dropWhile
      (fun c => c = ' ')).reverse)

def STARTED_MESSAGE : String := "Checking for updates to the bundle with"

def SUCCESS_MESSAGE : String := "Successfully applied update with"

def FAILED_MESSAGE : String := "Cannot apply update with"

/-- Modelled from the spec: `HmrConstants.HMR_SUCCESS_STATUS` lives in
lib/common/constants.ts, outside the given sources.  Only its truthiness
and distinctness from the error status matter. -/
def HMR_SUCCESS_STATUS : Int := 2

/-- Modelled from the spec: `HmrConstants.HMR_ERROR_STATUS`, see
`HMR_SUCCESS_STATUS`. -/
def HMR_ERROR_STATUS : Int := 3

/-- `hashOperationStatuses`: key `deviceId + operationHash` to the recorded
status (`{status: ...}` collapsed to the status value). -/
def HmrStatuses : Type := List (String × Int)

/-- `setData(status, operationHash, deviceId)`. -/
def setData (st : HmrStatuses) (status : Int)
    (operationHash deviceId : String) : HmrStatuses :=
  setKey st (deviceId ++ operationHash) status

/-- `getStatusByKey(key)`: the recorded status or `null`. -/
def getStatusByKey (st : HmrStatuses) (key : String) : Option Int :=
  getKey st key

/-- `handleHmrStatusFound(matches, deviceId)`: maps the trimmed verb phrase
to a status and records it under `deviceId + hash`; unknown phrases
(including the "Checking for updates" one) record nothing.  Never throws. -/
def handleHmrStatusFound (ms : List String) (deviceId : String)
    (st : HmrStatuses) : HmrStatuses × Bool :=
  let message := jsTrim (ms.getD 1 "")
  let hash := ms.getD 2 ""
  let status : Option Int :=
    if message = SUCCESS_MESSAGE then some HMR_SUCCESS_STATUS
    else if message = FAILED_MESSAGE then some HMR_ERROR_STATUS
    else none
  (match status with
   | some st0 => setData st st0 hash deviceId
   | none => st,
   false)

/-- The rule registered by `attachToHmrStatusEvent`. -/
def hmrStatusRule : ParseRule HmrStatuses :=
  { name := "hmrStatus", platform := none,
    regex := hmrStatusLogRegexExec, handler := handleHmrStatusFound }

/-- JavaScript truthiness of the value returned by `getStatusByKey`. -/
def jsTruthyStatus : Option Int → Bool
  | none => false
  | some n => !(n = 0)

/-- The `setInterval` poll loop of `getHmrStatus`: `statusAt t` is what
`getStatusByKey` returns at the t-th tick (the 250 ms interval itself is
real time and not modelled).  Resolves with the observed status once it is
truthy or once the retry budget reaches zero; returns the resolution value
and the number of ticks consumed. -/
def pollLoop (statusAt : Nat → Option Int) : Nat → Nat → Option Int × Nat
  | 0, tick => (statusAt tick, tick + 1)
  | r + 1, tick =>
    let status := statusAt tick
    if jsTruthyStatus status then (status, tick + 1)
    else pollLoop statusAt r (tick + 1)

/-- `getHmrStatus(deviceId, operationHash)`: polls with an initial retry
budget of 40. -/
def getHmrStatus (statusAt : Nat → Option Int) : Option Int :=
  (pollLoop statusAt 40 0).1

/-! ## Outbound file payloads with exclusion filters

Embeds `PreviewAppLiveSyncService.getFilesPayload` and
`createFilePayload` (test/project-service.ts excerpt, lines 488-556).
The Node `path` helpers and the file-reading / binary-detection / base64
collaborators are external to the core and are embedded as parameters or
as the evident pure functions on strings.
-/

/-- Modelled from the spec: the folder-name constants live in
lib/constants.ts outside the given sources; the spec (section 4.2/6) names
dependency/module and native-resource directories as the excluded roots. -/
def TNS_MODULES_FOLDER_NAME : String := "tns_modules"

/-- Modelled from the spec: see `TNS_MODULES_FOLDER_NAME`. -/
def APP_RESOURCES_FOLDER_NAME : String := "App_Resources"

/-- Modelled from the spec: see `TNS_MODULES_FOLDER_NAME`. -/
def APP_FOLDER_NAME : String := "app"

/-- `PreviewSdkEventNames.CHANGE_EVENT_NAME` (spec section 6: event is
"change" or "unlink"). -/
def CHANGE_EVENT_NAME : String := "change"

/-- `PreviewSdkEventNames.UNLINK_EVENT_NAME`. -/
def UNLINK_EVENT_NAME : String := "unlink"

/-- Substring search: `hay.indexOf(needle) !== -1`. -/
def containsSub (needle : List Char) : List Char → Bool
  | [] => leadsWith needle []
  | c :: rest => leadsWith needle (c :: rest) || containsSub needle rest

/-- `file.indexOf(sub) !== -1` on strings. -/
def strIncludes (s sub : String) : Bool :=
  containsSub sub.toList s.toList

/-- Node `path.basename` for forward-slash paths without trailing slash. -/
def pathBasename (p : String) : String :=
  String.mk ((p.toList.reverse.takeWhile (fun c => !(c = '/'))).reverse)

/-- Node `path.extname`: the suffix of the basename from its last dot,
empty when the only dot is the leading character or there is none. -/
def pathExtname (p : String) : String :=
  let r := (pathBasename p).toList.reverse
  let pre := r.takeWhile (fun c => !(c = '.'))
  match r.drop pre.length with
  | [] => ""
  | _ :: rest => if rest = [] then "" else String.mk ('.' :: pre.reverse)

/-- Node `path.join` restricted to already-normalized segments. -/
def pathJoin (a b : String) : String := a ++ "/" ++ b

/-- Node `path.dirname` for forward-slash paths. -/
def pathDirname (p : String) : String :=
  let r := p.toList.reverse
  let base := r.takeWhile (fun c => !(c = '/'))
  match r.drop base.length with
  | [] => "."
  | _ :: rest => if rest = [] then "/" else String.mk rest.reverse

/-- Node `path.relative`, exact for the used case where the target lies
under the base directory; other targets are returned unchanged. -/
def pathRelative (fromDir toPath : String) : String :=
  if leadsWith (fromDir.toList ++ ['/']) toPath.toList then
    String.mk (toPath.toList.drop (fromDir.toList.length + 1))
  else toPath

/-- `$projectFilesProvider.getProjectFileInfo` result fields used. -/
structure ProjectFileInfo where
  filePath : String
  onDeviceFileName : String

/-- External collaborators read by `createFilePayload`. -/
structure PayloadExternals where
  getProjectFileInfo : String → ProjectFileInfo
  isBinarySync : String → Bool
  readFile : String → String
  readText : String → String
  base64Encode : String → String

/-- The fields of `IPlatformData` read by the payload code. -/
structure PlatformDataModel where
  appDestinationDirectoryPath : String
  normalizedPlatformName : String

/-- The fields of `IProjectData` read by the payload code. -/
structure ProjectDataModel where
  projectDir : String

/-- One outbound `FilePayload`. -/
structure FilePayload where
  event : String
  file : String
  binary : Bool
  fileContents : String
deriving DecidableEq, Repr

/-- The `FilesPayload` returned by `getFilesPayload`. -/
structure FilesPayload where
  files : List FilePayload
  platform : String
deriving DecidableEq, Repr

/-- `createFilePayload(file, platformData, projectData, event)`. -/
def createFilePayload (ext : PayloadExternals)
    (platformData : PlatformDataModel) (projectData : ProjectDataModel)
    (file : String) (event : String) : FilePayload :=
  let info := ext.getProjectFileInfo file
  let binary := ext.isBinarySync file
  let filePath :=
    if event = CHANGE_EVENT_NAME then
      pathJoin
        (pathDirname (pathRelative
          (pathJoin platformData.appDestinationDirectoryPath APP_FOLDER_NAME)
          file))
        info.onDeviceFileName
    else if event = UNLINK_EVENT_NAME then
      pathRelative (pathJoin projectData.projectDir APP_FOLDER_NAME) file
    else ""
  let fileContents :=
    if event = CHANGE_EVENT_NAME then
      if binary then ext.base64Encode (ext.readFile file)
      else ext.readText
        (pathJoin (pathDirname info.filePath) info.onDeviceFileName)
    else ""
  { event := event, file := filePath, binary := binary,
    fileContents := fileContents }

/-- `private excludedFileExtensions = [".ts", ".sass", ".scss", ".less"]`. -/
def excludedFileExtensions : List String := [".ts", ".sass", ".scss", ".less"]

/-- `private excludedFiles = [".DS_Store"]`. -/
def excludedFilesList : List String := [".DS_Store"]

/-- The exclusion filter chain applied to `filesToSync`. -/
def filterExcluded (filesToSync : List String) : List String :=
  (((filesToSync.filter
      (fun f => !(strIncludes f TNS_MODULES_FOLDER_NAME))).filter
      (fun f => !(strIncludes f APP_RESOURCES_FOLDER_NAME))).filter
      (fun f => !(excludedFilesList.contains (pathBasename f)))).filter
      (fun f => !(excludedFileExtensions.contains (pathExtname f)))

/-- `getFilesPayload(platformData, projectData, filesToSync, filesToRemove)`:
change payloads for the files surviving the exclusion filters, then unlink
payloads for every removed file (unfiltered), tagged with the lowercased
platform name. -/
def getFilesPayload (ext : PayloadExternals)
    (platformData : PlatformDataModel) (projectData : ProjectDataModel)
    (filesToSync : List String) (filesToRemove : List String) : FilesPayload :=
  let filesToTransfer := filterExcluded filesToSync
  let payloadsToSync := filesToTransfer.map
    (fun f => createFilePayload ext platformData projectData f CHANGE_EVENT_NAME)
  let payloadsToRemove := filesToRemove.map
    (fun f => createFilePayload ext platformData projectData f UNLINK_EVENT_NAME)
  { files := payloadsToSync ++ payloadsToRemove,
    platform := platformData.normalizedPlatformName.toLower }

/-- Specification-level per-line dispatch, written after the spec's words
(section 4.6): every registered rule whose platform filter passes is
evaluated independently against the line, in registration order, with no
early abort.  Used to compare the implementation's dispatcher with the
spec when no handler throws. -/
def applyRulesNoThrow {σ : Type} (deviceId : String)
    (devicePlatform : Option String) (line : List Char)
    (rules : List (ParseRule σ)) (s : σ) : σ :=
  rules.foldl (fun s0 r =>
    if platformRuleApplies devicePlatform r.platform then
      match r.regex line with
      | some ms => (r.handler ms deviceId s0).1
      | none => s0
    else s0) s

/-- A rule whose handler records its name and then throws; used to observe
the dispatcher's behavior when a handler raises. -/
def throwingRule : ParseRule (List String) :=
  { name := "r1", platform := none,
    regex := fun _ => some ["m"],
    handler := fun _ _ s => (s ++ ["r1"], true) }

/-- A rule whose handler records its name and never throws. -/
def recordingRule : ParseRule (List String) :=
  { name := "r2", platform := none,
    regex := fun _ => some ["m"],
    handler := fun _ _ s => (s ++ ["r2"], false) }

/-- Concrete external collaborators for evaluating the payload code on
closed inputs. -/
def trivialExternals : PayloadExternals :=
  { getProjectFileInfo := fun f =>
      { filePath := f, onDeviceFileName := pathBasename f },
    isBinarySync := fun _ => false,
    readFile := fun _ => "",
    readText := fun _ => "",
    base64Encode := fun s => s }

end NsCli

namespace NsCli

/-! ## Helper theorems -/

theorem changed_pred_iff (old : List (String × String)) (e : String × String) :
    ((match lookupStr old e.1 with
      | some h => !(h = e.2)
      | none => true) = true) ↔ ¬ lookupStr old e.1 = some e.2 := by
  cases hl : lookupStr old e.1 with
  | none => simp
  | some h => simp

theorem getKey_setKey_self {α : Type} (l : List (String × α)) (k : String) (v : α) :
    getKey (setKey l k v) k = some v := by
  induction l with
  | nil => simp [getKey, setKey]
  | cons e es ih =>
    by_cases he : e.1 = k
    · simp [getKey, setKey, he]
    · simp only [setKey, if_neg he]
      simp only [getKey, List.find?]
      have : (decide (e.1 = k)) = false := by simp [he]
      simp only [this]
      exact ih

theorem getKey_completeInit_self (slots : InitSlots) (d : String) :
    getKey (completeInit slots d) d = none := by
  unfold getKey completeInit
  induction slots with
  | nil => simp
  | cons e es ih =>
    by_cases he : e.1 = d
    · simp only [List.filter]
      have : (!decide (e.1 = d)) = false := by simp [he]
      simp only [this]
      exact ih
    · simp only [List.filter]
      have : (!decide (e.1 = d)) = true := by simp [he]
      simp only [this]
      simp only [List.find?]
      have hf : (decide (e.1 = d)) = false := by simp [he]
      simp only [hf]
      exact ih

end NsCli

namespace NsCli

/-! ## Claim C3 -/

/-- C3: for every device id, while an initialization is in flight every
concurrent call for that device returns the same pending promise without
running the initialization function again (and more generally any call
finding a stored promise returns it with the state unchanged); once the
slot is cleared on completion, a subsequent call starts a fresh
initialization. -/
theorem c3_single_flight_init (slots : InitSlots) (dev : String)
    (fresh1 fresh2 fresh3 : Nat) (h : getKey slots dev = none) :
    (∀ (st : InitSlots) (p f : Nat), getKey st dev = some p →
        initDevice st dev f = (p, false, st)) ∧
    initDevice slots dev fresh1 = (fresh1, true, setKey slots dev fresh1) ∧
    initDevice (setKey slots dev fresh1) dev fresh2
      = (fresh1, false, setKey slots dev fresh1) ∧
    initDevice (completeInit (setKey slots dev fresh1) dev) dev fresh3
      = (fresh3, true,
         setKey (completeInit (setKey slots dev fresh1) dev) dev fresh3) := by
  refine ⟨?_, ?_, ?_, ?_⟩
  · intro st p f hst
    simp [initDevice, hst]
  · simp [initDevice, h]
  · simp [initDevice, getKey_setKey_self]
  · simp [initDevice, getKey_completeInit_self]

/-- Witness for C3 at a concrete device and empty slot table. -/
theorem c3_single_flight_init_witness :
    (∀ (st : InitSlots) (p f : Nat), getKey st "device-1" = some p →
        initDevice st "device-1" f = (p, false, st)) ∧
    initDevice [] "device-1" 1 = (1, true, setKey [] "device-1" 1) ∧
    initDevice (setKey [] "device-1" 1) "device-1" 2
      = (1, false, setKey [] "device-1" 1) ∧
    initDevice (completeInit (setKey [] "device-1" 1) "device-1") "device-1" 3
      = (3, true,
         setKey (completeInit (setKey [] "device-1" 1) "device-1") "device-1" 3) :=
  c3_single_flight_init [] "device-1" 1 2 3 rfl

/-! ## Claim C5 -/

/-- C5: a forced full sync deletes the device's stored fingerprint file
first and then transfers the entire current file set with no diffing,
whatever the prior table state was. -/
theorem c5_forced_full_sync_clears_then_transfers_all (fs : DeviceFS)
    (paths : List String) (cur : List (String × String)) :
    transferFilesCore true fs paths cur { force := true, isFullSync := true }
      = (some paths,
         { hashFile := none,
           events := fs.events
             ++ [DevEvent.deleteHashFile, DevEvent.transferDir paths] }) := by
  simp [transferFilesCore, deleteDeviceHashFile, transferDirectoryOnDevice]

/-! ## Claim C4 -/

/-- C4 counterexample: in a forced full sync whose push fails, the stored
fingerprint table is not left unchanged — it was already cleared before the
push — contradicting the claim's "the device's stored fingerprint table is
left unchanged" for this input (though no commit happened). -/
theorem c4_claim_counterexample :
    ¬ ((transferFiles false
          { hashFile := some [("a.js", "h1")], events := [] }
          ["a.js"] (fun _ => "h2")
          { force := true, isFullSync := true }).2.hashFile
        = some [("a.js", "h1")]) := by
  decide

/-- C4 amended: when the transport push fails, the transfer returns the
exception, no fingerprint commit occurs (no commit event is appended and
`updateHashesOnDevice` never runs), and the stored table is exactly what
it was — except that a forced full sync has already cleared it before the
push, in which case it is empty, so the next cycle still re-evaluates every
failed file as changed. -/
theorem c4_push_failure_no_commit (fs : DeviceFS) (paths : List String)
    (hashOf : String → String) (options : TransferOptions) :
    transferFiles false fs paths hashOf options
      = (none,
         if options.force && options.isFullSync then
           { hashFile := none, events := fs.events ++ [DevEvent.deleteHashFile] }
         else fs) := by
  by_cases h : (options.force && options.isFullSync) = true
  · simp [transferFiles, transferFilesCore, deleteDeviceHashFile,
      transferDirectoryOnDevice, h]
  · simp only [Bool.not_eq_true] at h
    simp [transferFiles, transferFilesCore, transferFilesOnDevice, h]

/-! ## Claim C2 -/

/-- C2 counterexample: two requests arriving while a cycle is running
produce two follow-up sync cycles, not exactly one (each does cover the
union of both requests' changed paths). -/
theorem c2_claim_counterexample :
    runBurstScenario [["a.js"], ["b.js"]]
      = [["a.js", "b.js"], ["a.js", "b.js"]] ∧
    ¬ ((runBurstScenario [["a.js"], ["b.js"]]).length = 1) := by
  decide

/-- C2 amended: each of the two requests arriving during a running cycle
attaches its own continuation to the same in-flight promise, so after that
cycle completes two follow-up cycles execute, each covering the union of
both requests' changed paths; no change is dropped, but the follow-up
cycle is duplicated rather than unique. -/
theorem c2_two_requests_two_follow_ups (a b : List String) :
    runBurstScenario [a, b] = [a ++ b, a ++ b] := by
  simp [runBurstScenario, arriveRequest, schedInit, resolvePromise,
    runSyncCont, List.range_succ]

end NsCli

namespace NsCli

/-! ## Claim C1 -/

/-- C1 counterexample: with `mode=Incremental` (`isFullSync=false`) and
`force=false`, a file whose current fingerprint equals the stored one is
still pushed — the transfer set is not the changed set, which is empty
here. -/
theorem c1_claim_counterexample :
    ¬ (getLocalToDevicePathsToTransfer
          { hashFile := some [("a.js", "h1")], events := [] }
          ["a.js"] [("a.js", "h1")]
          { force := false, isFullSync := false }
        = ["a.js"].filter (fun p =>
            ((getChangedShasums [("a.js", "h1")] [("a.js", "h1")]).map
              (fun e => e.1)).contains p)) := by
  decide

/-- C1 amended: the diff-and-send-only-changed behavior belongs to the
non-forced full sync, not to the incremental mode.  With `force=false` and
`isFullSync=false` the whole provided path list is transferred without
consulting stored fingerprints; with `force=false` and `isFullSync=true` a
path is transferred iff it is in the provided list and its current
fingerprint is absent from, or differs from, the device's stored table. -/
theorem c1_diff_only_on_non_forced_full_sync (fs : DeviceFS)
    (paths : List String) (cur : List (String × String)) :
    getLocalToDevicePathsToTransfer fs paths cur
      { force := false, isFullSync := false } = paths ∧
    (∀ p, p ∈ getLocalToDevicePathsToTransfer fs paths cur
        { force := false, isFullSync := true }
      ↔ p ∈ paths ∧ ∃ h, (p, h) ∈ cur ∧
          ¬ lookupStr ((getShasumsFromDevice fs).getD []) p = some h) := by
  constructor
  · simp [getLocalToDevicePathsToTransfer]
  · intro p
    simp only [getLocalToDevicePathsToTransfer, getChangedLocalToDevicePaths,
      getChangedShasums]
    rw [if_neg (by simp)]
    rw [List.mem_filter]
    constructor
    · rintro ⟨hp, hc⟩
      refine ⟨hp, ?_⟩
      rw [List.contains_iff_exists_mem_beq] at hc
      obtain ⟨q, hq, hbeq⟩ := hc
      obtain ⟨e, he, rfl⟩ := List.mem_map.mp hq
      obtain ⟨hecur, hpred⟩ := List.mem_filter.mp he
      have hqp : e.1 = p := by
        have := beq_iff_eq.mp hbeq
        exact this.symm
      refine ⟨e.2, ?_, ?_⟩
      · rw [← hqp]
        simpa using hecur
      · rw [← hqp]
        exact (changed_pred_iff _ e).mp hpred
    · rintro ⟨hp, h, hcur, hdiff⟩
      refine ⟨hp, ?_⟩
      rw [List.contains_iff_exists_mem_beq]
      refine ⟨p, ?_, by simp⟩
      refine List.mem_map.mpr ⟨(p, h), ?_, rfl⟩
      refine List.mem_filter.mpr ⟨hcur, ?_⟩
      exact (changed_pred_iff _ (p, h)).mpr hdiff

end NsCli

namespace NsCli

/-! ## Claim C8 -/

theorem processLineRules_no_throw {σ : Type} (deviceId : String)
    (plat : Option String) (line : List Char) (rules : List (ParseRule σ))
    (s : σ)
    (h : ∀ r ∈ rules, ∀ ms d s0, (r.handler ms d s0).2 = false) :
    processLineRules deviceId plat line rules s
      = (applyRulesNoThrow deviceId plat line rules s, false) := by
  induction rules generalizing s with
  | nil => rfl
  | cons r rs ih =>
    have hr := h r (by simp)
    have hrs : ∀ r0 ∈ rs, ∀ ms d s0, (r0.handler ms d s0).2 = false :=
      fun r0 h0 => h r0 (by simp [h0])
    by_cases hp : platformRuleApplies plat r.platform = true
    · cases hm : r.regex line with
      | some ms =>
        rcases hpr : r.handler ms deviceId s with ⟨s1, b⟩
        have hb : b = false := by
          have := hr ms deviceId s
          rw [hpr] at this
          exact this
        subst hb
        simp only [processLineRules, if_pos hp, hm, hpr]
        rw [ih s1 hrs]
        simp [applyRulesNoThrow, if_pos hp, hm, hpr]
      | none =>
        simp only [processLineRules, if_pos hp, hm]
        rw [ih s hrs]
        simp [applyRulesNoThrow, if_pos hp, hm]
    · simp only [processLineRules, if_neg hp]
      rw [ih s hrs]
      simp [applyRulesNoThrow, if_neg hp]

theorem processLinesLoop_no_throw {σ : Type} (rules : List (ParseRule σ))
    (deviceId : String) (plat : Option String) (lines : List (List Char))
    (s : σ)
    (h : ∀ r ∈ rules, ∀ ms d s0, (r.handler ms d s0).2 = false) :
    processLinesLoop rules deviceId plat lines s
      = (lines.foldl (fun s0 l => applyRulesNoThrow deviceId plat l rules s0) s,
         false) := by
  induction lines generalizing s with
  | nil => rfl
  | cons l ls ih =>
    simp only [processLinesLoop, processLineRules_no_throw deviceId plat l rules s h]
    rw [ih]
    simp

/-- C8 counterexample: two rules both match the line, the first one's
handler throws, and the second rule is never evaluated — its handler's
record "r2" is missing from the final state — contradicting "an exception
thrown inside one rule's handler does not prevent the remaining rules from
being evaluated against the same line". -/
theorem c8_claim_counterexample :
    processDeviceLogResponse [throwingRule, recordingRule] "line" "dev"
        none ([] : List String)
      = (["r1"], true) ∧
    ¬ ("r2" ∈ (processDeviceLogResponse [throwingRule, recordingRule] "line"
        "dev" none ([] : List String)).1) := by
  constructor
  · rfl
  · intro hmem
    rw [show (processDeviceLogResponse [throwingRule, recordingRule] "line"
        "dev" none ([] : List String)).1 = ["r1"] from rfl] at hmem
    simp at hmem

/-- C8 amended: rules are evaluated in registration order against every
line; as long as no handler throws, every rule whose platform filter is
unset or case-insensitively equal to the line's platform and whose pattern
matches is evaluated (the dispatch equals the spec-level fold over all
rules and lines).  A handler exception, however, aborts the remaining
rules and lines. -/
theorem c8_all_rules_evaluated_without_throw (σ : Type)
    (rules : List (ParseRule σ)) (message deviceId : String)
    (plat : Option String) (s : σ)
    (h : ∀ r ∈ rules, ∀ ms d s0, (r.handler ms d s0).2 = false) :
    processDeviceLogResponse rules message deviceId plat s
      = ((splitLines message.toList).foldl
          (fun s0 l => applyRulesNoThrow deviceId plat l rules s0) s,
         false) :=
  processLinesLoop_no_throw rules deviceId plat (splitLines message.toList) s h

/-- Witness for C8's amended theorem with a concrete non-throwing rule. -/
theorem c8_all_rules_evaluated_without_throw_witness :
    processDeviceLogResponse [recordingRule] "line" "dev" none
        ([] : List String)
      = ((splitLines "line".toList).foldl
          (fun s0 l => applyRulesNoThrow "dev" none l [recordingRule] s0) [],
         false) ∧
    processDeviceLogResponse [recordingRule] "line" "dev" none
        ([] : List String) = (["r2"], false) := by
  have h := c8_all_rules_evaluated_without_throw (List String) [recordingRule]
    "line" "dev" none []
    (by
      intro r hr ms d s0
      rw [List.mem_singleton] at hr
      subst hr
      rfl)
  exact ⟨h, by rfl⟩

end NsCli

namespace NsCli

/-! ## Claim C9 -/

/-- C9 counterexample: a removed file under the excluded dependency root
`tns_modules` still produces an unlink entry in the payload — unlink
entries are not filtered — contradicting "no entry (neither a change nor
an unlink entry) refers to a file under an excluded root". -/
theorem c9_claim_counterexample :
    (getFilesPayload trivialExternals
        { appDestinationDirectoryPath := "dest", normalizedPlatformName := "iOS" }
        { projectDir := "proj" }
        [] ["proj/app/tns_modules/foo.js"]).files
      = [{ event := "unlink", file := "tns_modules/foo.js", binary := false,
           fileContents := "" }] ∧
    strIncludes "tns_modules/foo.js" TNS_MODULES_FOLDER_NAME = true := by
  constructor
  · rfl
  · decide

/-- C9 amended: only the change entries are filtered: every change-event
payload comes from a provided file that survives all four exclusion
filters (excluded roots, excluded basenames, excluded extensions), while
unlink entries are produced for every removed file without filtering. -/
theorem c9_change_entries_filtered (ext : PayloadExternals)
    (pd : PlatformDataModel) (prd : ProjectDataModel)
    (fts ftr : List String) (p : FilePayload)
    (hp : p ∈ (getFilesPayload ext pd prd fts ftr).files)
    (hev : p.event = CHANGE_EVENT_NAME) :
    ∃ f, f ∈ fts ∧
      strIncludes f TNS_MODULES_FOLDER_NAME = false ∧
      strIncludes f APP_RESOURCES_FOLDER_NAME = false ∧
      excludedFilesList.contains (pathBasename f) = false ∧
      excludedFileExtensions.contains (pathExtname f) = false ∧
      p = createFilePayload ext pd prd f CHANGE_EVENT_NAME := by
  simp only [getFilesPayload] at hp
  rcases List.mem_append.mp hp with hc | hu
  · obtain ⟨f, hf, rfl⟩ := List.mem_map.mp hc
    simp only [filterExcluded] at hf
    obtain ⟨hf3, hpred4⟩ := List.mem_filter.mp hf
    obtain ⟨hf2, hpred3⟩ := List.mem_filter.mp hf3
    obtain ⟨hf1, hpred2⟩ := List.mem_filter.mp hf2
    obtain ⟨hf0, hpred1⟩ := List.mem_filter.mp hf1
    refine ⟨f, hf0, ?_, ?_, ?_, ?_, rfl⟩
    · simpa using hpred1
    · simpa using hpred2
    · simpa using hpred3
    · simpa using hpred4
  · exfalso
    obtain ⟨f, hf, rfl⟩ := List.mem_map.mp hu
    have : UNLINK_EVENT_NAME = CHANGE_EVENT_NAME := hev
    exact absurd this (by decide)

/-- Witness for C9's amended theorem at a concrete surviving file. -/
theorem c9_change_entries_filtered_witness :
    ∃ f, f ∈ ["dest/app/x.js"] ∧
      strIncludes f TNS_MODULES_FOLDER_NAME = false ∧
      strIncludes f APP_RESOURCES_FOLDER_NAME = false ∧
      excludedFilesList.contains (pathBasename f) = false ∧
      excludedFileExtensions.contains (pathExtname f) = false ∧
      createFilePayload trivialExternals
          { appDestinationDirectoryPath := "dest",
            normalizedPlatformName := "iOS" }
          { projectDir := "proj" } "dest/app/x.js" CHANGE_EVENT_NAME
        = createFilePayload trivialExternals
          { appDestinationDirectoryPath := "dest",
            normalizedPlatformName := "iOS" }
          { projectDir := "proj" } f CHANGE_EVENT_NAME :=
  c9_change_entries_filtered trivialExternals
    { appDestinationDirectoryPath := "dest", normalizedPlatformName := "iOS" }
    { projectDir := "proj" } ["dest/app/x.js"] []
    (createFilePayload trivialExternals
      { appDestinationDirectoryPath := "dest", normalizedPlatformName := "iOS" }
      { projectDir := "proj" } "dest/app/x.js" CHANGE_EVENT_NAME)
    (by decide) (by decide)

end NsCli

namespace NsCli

/-! ## Lemmas about the embedded HMR status regular expression -/

theorem leadsWith_append_self (L r : List Char) : leadsWith L (L ++ r) = true := by
  induction L with
  | nil => rfl
  | cons a as ih => simp [leadsWith, ih]

theorem leadsWith_take {L s : List Char} (h : leadsWith L s = true) :
    s.take L.length = L := by
  induction L generalizing s with
  | nil => simp
  | cons a as ih =>
    cases s with
    | nil => simp [leadsWith] at h
    | cons b bs =>
      simp only [leadsWith, Bool.and_eq_true, decide_eq_true_eq] at h
      obtain ⟨hab, h2⟩ := h
      subst hab
      simp [List.take, ih h2]

theorem takeWhile_append_all {p : Char → Bool} {l1 l2 : List Char}
    (h : ∀ c ∈ l1, p c = true) :
    (l1 ++ l2).takeWhile p = l1 ++ l2.takeWhile p := by
  induction l1 with
  | nil => rfl
  | cons a as ih =>
    have h1 : p a = true := h a (List.mem_cons_self a as)
    have h2 := ih (fun c hc => h c (List.mem_cons_of_mem a hc))
    simp [List.takeWhile_cons, h1, h2]

theorem splitLines_no_nl (s : List Char) (h : ∀ c ∈ s, ¬ c = '\n') :
    splitLines s = [s] := by
  induction s with
  | nil => rfl
  | cons c t ih =>
    have hc : ¬ c = '\n' := h c (by simp)
    rw [splitLines, if_neg hc, ih (fun x hx => h x (by simp [hx]))]

theorem leadsWith_litM_inside (s : List Char)
    (hs : ∀ c ∈ s, isClass2 c = true ∨ c = '.') :
    leadsWith litM s = false := by
  cases s with
  | nil => rfl
  | cons c t =>
    have hmem := hs c (by simp)
    have hc : ¬ (' ' = c) := by
      intro he
      rw [← he] at hmem
      rcases hmem with h1 | h1
      · exact absurd h1 (by decide)
      · exact absurd h1 (by decide)
    simp [litM, leadsWith, hc]

theorem leadsWith_tail9_false (X : List Char)
    (hX : ∀ c ∈ X, isClass2 c = true ∨ c = '.') :
    leadsWith ['h', 'm', 'r', ' ', 'h', 'a', 's', 'h', ' '] X = false := by
  by_contra hcon
  have ht : leadsWith ['h', 'm', 'r', ' ', 'h', 'a', 's', 'h', ' '] X = true := by
    cases hb : leadsWith ['h', 'm', 'r', ' ', 'h', 'a', 's', 'h', ' '] X
    · exact absurd hb hcon
    · rfl
  have htake := leadsWith_take ht
  have hsp : ' ' ∈ X.take 9 := by
    rw [show (['h', 'm', 'r', ' ', 'h', 'a', 's', 'h', ' '] : List Char).length = 9
      from rfl] at htake
    rw [htake]
    decide
  have hspX : ' ' ∈ X := List.mem_of_mem_take hsp
  rcases hX ' ' hspX with h1 | h1
  · exact absurd h1 (by decide)
  · exact absurd h1 (by decide)

theorem leadsWith_litM_drop (H : List Char)
    (hH : ∀ c ∈ H, isClass2 c = true) (k : Nat) (hk : 1 ≤ k) :
    leadsWith litM ((litM ++ (H ++ ['.'])).drop k) = false := by
  have hX : ∀ c ∈ H ++ ['.'], isClass2 c = true ∨ c = '.' := by
    intro c hc
    rcases List.mem_append.mp hc with h1 | h1
    · exact Or.inl (hH c h1)
    · simp at h1
      exact Or.inr h1
  rcases k with _ | _ | _ | _ | _ | _ | _ | _ | _ | k9
  · exact absurd hk (by omega)
  · rfl
  · rfl
  · rfl
  · rfl
  · rfl
  · rfl
  · rfl
  · rfl
  · rcases k9 with _ | j
    · exact leadsWith_tail9_false (H ++ ['.']) hX
    · exact leadsWith_litM_inside ((H ++ ['.']).drop j)
        (fun c hc => hX c (List.mem_of_mem_drop hc))

end NsCli

namespace NsCli

theorem checkAt_none_above (P H : List Char)
    (hH : ∀ c ∈ H, isClass2 c = true) (g1 : Nat) (hg : P.length < g1) :
    checkAt (P ++ (litM ++ (H ++ ['.']))) g1 = none := by
  have hk : g1 = P.length + (g1 - P.length) := by omega
  have h2 : (P ++ (litM ++ (H ++ ['.']))).drop (P.length + (g1 - P.length))
      = (litM ++ (H ++ ['.'])).drop (g1 - P.length) :=
    List.drop_append (g1 - P.length)
  rw [← hk] at h2
  unfold checkAt
  rw [h2, leadsWith_litM_drop H hH _ (by omega)]
  simp

theorem checkAt_at_phrase (P H : List Char)
    (hH : ∀ c ∈ H, isClass2 c = true) :
    checkAt (P ++ (litM ++ (H ++ ['.']))) P.length = some (P, H) := by
  have hdrop0 : (P ++ (litM ++ (H ++ ['.']))).drop P.length
      = litM ++ (H ++ ['.']) := List.drop_left P _
  have hdrop10 : (P ++ (litM ++ (H ++ ['.']))).drop (P.length + 10)
      = H ++ ['.'] := by
    rw [List.drop_append]
    exact List.drop_left litM _
  have htw : (H ++ ['.']).takeWhile isClass2 = H := by
    have hdot : (['.'] : List Char).takeWhile isClass2 = [] := rfl
    rw [takeWhile_append_all hH, hdot, List.append_nil]
  have hdropH : (H ++ ['.']).drop H.length = ['.'] := List.drop_left H _
  unfold checkAt
  rw [hdrop0, leadsWith_append_self, if_pos rfl, hdrop10]
  simp only [htw, hdropH, List.take_left]
  rw [if_pos trivial]

theorem tryG1From_skip (s : List Char) (p : Nat)
    (habove : ∀ g1, p < g1 → checkAt s g1 = none) :
    ∀ n, p ≤ n → tryG1From s n = tryG1From s p := by
  intro n
  induction n with
  | zero =>
    intro hpn
    have : p = 0 := by omega
    rw [this]
  | succ m ih =>
    intro hpn
    by_cases hpe : p = m + 1
    · rw [hpe]
    · have hlt : p ≤ m := by omega
      have hnone : checkAt s (m + 1) = none := habove _ (by omega)
      rw [show tryG1From s (m + 1)
          = (match checkAt s (m + 1) with
             | some r => some r
             | none => tryG1From s m) from rfl, hnone]
      exact ih hlt

theorem tryG1From_self (s : List Char) (p : Nat) (r : List Char × List Char)
    (h : checkAt s p = some r) : tryG1From s p = some r := by
  cases p with
  | zero => rw [tryG1From, h]
  | succ q =>
    rw [show tryG1From s (q + 1)
        = (match checkAt s (q + 1) with
           | some r0 => some r0
           | none => tryG1From s q) from rfl, h]

theorem matchHere_phrase (P H : List Char)
    (hP : ∀ c ∈ P, isClass1 c = true) (hH : ∀ c ∈ H, isClass2 c = true) :
    matchHere (P ++ (litM ++ (H ++ ['.']))) = some (P, H) := by
  unfold matchHere
  have hlen : P.length
      ≤ ((P ++ (litM ++ (H ++ ['.']))).takeWhile isClass1).length := by
    rw [takeWhile_append_all hP]
    simp
  rw [tryG1From_skip (P ++ (litM ++ (H ++ ['.']))) P.length
      (fun g1 hg => checkAt_none_above P H hH g1 hg) _ hlen]
  exact tryG1From_self _ _ _ (checkAt_at_phrase P H hH)

theorem hmrExecCore_of_matchHere {s : List Char} {r : List Char × List Char}
    (hne : ¬ s = []) (h : matchHere s = some r) : hmrExecCore s = some r := by
  cases s with
  | nil => exact absurd rfl hne
  | cons c t => rw [hmrExecCore, h]

theorem hmrExecCore_phrase (P H : List Char)
    (hP : ∀ c ∈ P, isClass1 c = true) (hH : ∀ c ∈ H, isClass2 c = true) :
    hmrExecCore (P ++ (litM ++ (H ++ ['.']))) = some (P, H) := by
  apply hmrExecCore_of_matchHere
  · intro he
    have := congrArg List.length he
    simp [litM] at this
  · exact matchHere_phrase P H hP hH

theorem hmrStatusLogRegexExec_phrase (P H : List Char)
    (hP : ∀ c ∈ P, isClass1 c = true) (hH : ∀ c ∈ H, isClass2 c = true) :
    hmrStatusLogRegexExec (P ++ (litM ++ (H ++ ['.'])))
      = some [String.mk (P ++ litM ++ H ++ ['.']), String.mk P, String.mk H] := by
  unfold hmrStatusLogRegexExec
  rw [hmrExecCore_phrase P H hP hH]
  rfl

end NsCli


namespace NsCli

/-! ## Ingestion of HMR status lines through the dispatcher -/

theorem platformRuleApplies_none (plat : Option String) :
    platformRuleApplies plat none = true := by
  simp [platformRuleApplies, strFalsy]

theorem processLine_single_hmr (L : List Char) (D : String)
    (plat : Option String) (st : HmrStatuses) (ms : List String)
    (hexec : hmrStatusLogRegexExec L = some ms) :
    processLineRules D plat L [hmrStatusRule] st
      = ((handleHmrStatusFound ms D st).1, false) := by
  have happ := platformRuleApplies_none plat
  simp only [processLineRules, hmrStatusRule, happ, if_true, hexec]
  rfl

theorem handleHmrStatusFound_eval (full msg hash : String) (D : String)
    (st : HmrStatuses) :
    handleHmrStatusFound [full, msg, hash] D st
      = (if jsTrim msg = SUCCESS_MESSAGE then
           setKey st (D ++ hash) HMR_SUCCESS_STATUS
         else if jsTrim msg = FAILED_MESSAGE then
           setKey st (D ++ hash) HMR_ERROR_STATUS
         else st,
         false) := by
  by_cases h1 : jsTrim msg = SUCCESS_MESSAGE
  · simp [handleHmrStatusFound, setData, h1]
  · by_cases h2 : jsTrim msg = FAILED_MESSAGE
    · have hFS : ¬ FAILED_MESSAGE = SUCCESS_MESSAGE := by decide
      simp [handleHmrStatusFound, setData, h1, h2, hFS]
    · simp [handleHmrStatusFound, setData, h1, h2]

theorem hmr_ingest_phrase (P H : List Char) (D : String)
    (plat : Option String) (st : HmrStatuses)
    (hP : ∀ c ∈ P, isClass1 c = true) (hH : ∀ c ∈ H, isClass2 c = true) :
    processDeviceLogResponse [hmrStatusRule]
        (String.mk (P ++ (litM ++ (H ++ ['.'])))) D plat st
      = ((handleHmrStatusFound
           [String.mk (P ++ litM ++ H ++ ['.']), String.mk P, String.mk H]
           D st).1, false) := by
  have hnl : ∀ c ∈ P ++ (litM ++ (H ++ ['.'])), ¬ c = '\n' := by
    intro c hc he
    subst he
    rcases List.mem_append.mp hc with h1 | h1
    · exact absurd (hP _ h1) (by decide)
    · rcases List.mem_append.mp h1 with h2 | h2
      · exact absurd h2 (by decide)
      · rcases List.mem_append.mp h2 with h3 | h3
        · exact absurd (hH _ h3) (by decide)
        · simp at h3
  unfold processDeviceLogResponse
  rw [show (String.mk (P ++ (litM ++ (H ++ ['.'])))).toList
      = P ++ (litM ++ (H ++ ['.'])) from rfl,
    splitLines_no_nl _ hnl]
  rw [processLinesLoop,
    processLine_single_hmr _ _ _ _ _ (hmrStatusLogRegexExec_phrase P H hP hH)]
  rfl

theorem hmr_ingest_success (D : String) (plat : Option String)
    (H : List Char) (st : HmrStatuses)
    (hH : ∀ c ∈ H, isClass2 c = true) :
    processDeviceLogResponse [hmrStatusRule]
        (String.mk (SUCCESS_MESSAGE.toList ++ (litM ++ (H ++ ['.'])))) D plat st
      = (setKey st (D ++ String.mk H) HMR_SUCCESS_STATUS, false) := by
  rw [hmr_ingest_phrase SUCCESS_MESSAGE.toList H D plat st (by decide) hH,
    handleHmrStatusFound_eval]
  have hc : jsTrim (String.mk SUCCESS_MESSAGE.toList) = SUCCESS_MESSAGE := by
    decide
  rw [if_pos hc]

theorem hmr_ingest_failed (D : String) (plat : Option String)
    (H : List Char) (st : HmrStatuses)
    (hH : ∀ c ∈ H, isClass2 c = true) :
    processDeviceLogResponse [hmrStatusRule]
        (String.mk (FAILED_MESSAGE.toList ++ (litM ++ (H ++ ['.'])))) D plat st
      = (setKey st (D ++ String.mk H) HMR_ERROR_STATUS, false) := by
  rw [hmr_ingest_phrase FAILED_MESSAGE.toList H D plat st (by decide) hH,
    handleHmrStatusFound_eval]
  have hc1 : ¬ jsTrim (String.mk FAILED_MESSAGE.toList) = SUCCESS_MESSAGE := by
    decide
  have hc2 : jsTrim (String.mk FAILED_MESSAGE.toList) = FAILED_MESSAGE := by
    decide
  rw [if_neg hc1, if_pos hc2]

theorem hmr_ingest_checking (D : String) (plat : Option String)
    (H : List Char) (st : HmrStatuses)
    (hH : ∀ c ∈ H, isClass2 c = true) :
    processDeviceLogResponse [hmrStatusRule]
        (String.mk (STARTED_MESSAGE.toList ++ (litM ++ (H ++ ['.'])))) D plat st
      = (st, false) := by
  rw [hmr_ingest_phrase STARTED_MESSAGE.toList H D plat st (by decide) hH,
    handleHmrStatusFound_eval]
  have hc1 : ¬ jsTrim (String.mk STARTED_MESSAGE.toList) = SUCCESS_MESSAGE := by
    decide
  have hc2 : ¬ jsTrim (String.mk STARTED_MESSAGE.toList) = FAILED_MESSAGE := by
    decide
  rw [if_neg hc1, if_neg hc2]

end NsCli

namespace NsCli

/-! ## Poll loop lemmas -/

theorem pollLoop_reaches (statusAt : Nat → Option Int) (v : Int)
    (k : Nat) (hbefore : ∀ t, t < k → statusAt t = none)
    (hafter : ∀ t, k ≤ t → statusAt t = some v) (hv : ¬ v = 0) :
    ∀ r tick, k ≤ tick + r → (pollLoop statusAt r tick).1 = some v := by
  intro r
  induction r with
  | zero =>
    intro tick h
    rw [pollLoop]
    exact hafter tick (by omega)
  | succ m ih =>
    intro tick h
    by_cases htk : k ≤ tick
    · rw [pollLoop]
      have hs := hafter tick htk
      rw [hs]
      have : jsTruthyStatus (some v) = true := by
        simp [jsTruthyStatus, hv]
      rw [this, if_pos rfl]
    · have hlt : tick < k := by omega
      rw [pollLoop]
      have hs := hbefore tick hlt
      rw [hs]
      have : jsTruthyStatus none = false := rfl
      rw [this, if_neg (by simp)]
      exact ih (tick + 1) (by omega)

theorem pollLoop_all_none (statusAt : Nat → Option Int)
    (h : ∀ t, statusAt t = none) :
    ∀ r tick, pollLoop statusAt r tick = (none, tick + r + 1) := by
  intro r
  induction r with
  | zero =>
    intro tick
    rw [pollLoop, h tick]
  | succ m ih =>
    intro tick
    rw [pollLoop, h tick]
    have : jsTruthyStatus none = false := rfl
    rw [this, if_neg (by simp)]
    rw [ih (tick + 1)]
    have : tick + 1 + m + 1 = tick + (m + 1) + 1 := by omega
    rw [this]

end NsCli

namespace NsCli

/-! ## Claim C6 -/

/-- C6: ingesting the log line "(verb phrase) hmr hash H." updates the HMR
status table as the protocol says — "Successfully applied update with"
records the Success status under key deviceId ++ H (for every device id and
every hash over `[a-z0-9]`), "Cannot apply update with" records the Error
status, and "Checking for updates to the bundle with" records nothing —
and a `getHmrStatus` wait whose polls observe the recorded Success status
from some tick `k ≤ 40` on (pending before, or set from the start)
resolves to the Success status within the polling budget. -/
theorem c6_hmr_status_protocol (D : String) (plat : Option String)
    (H : List Char) (st : HmrStatuses)
    (hH : ∀ c ∈ H, isClass2 c = true)
    (statusAt : Nat → Option Int) (k : Nat) (hk : k ≤ 40)
    (hbefore : ∀ t, t < k → statusAt t = none)
    (hafter : ∀ t, k ≤ t → statusAt t = some HMR_SUCCESS_STATUS) :
    processDeviceLogResponse [hmrStatusRule]
        (String.mk (SUCCESS_MESSAGE.toList ++ (litM ++ (H ++ ['.'])))) D plat st
      = (setKey st (D ++ String.mk H) HMR_SUCCESS_STATUS, false) ∧
    getStatusByKey (setKey st (D ++ String.mk H) HMR_SUCCESS_STATUS)
        (D ++ String.mk H) = some HMR_SUCCESS_STATUS ∧
    getHmrStatus statusAt = some HMR_SUCCESS_STATUS ∧
    processDeviceLogResponse [hmrStatusRule]
        (String.mk (FAILED_MESSAGE.toList ++ (litM ++ (H ++ ['.'])))) D plat st
      = (setKey st (D ++ String.mk H) HMR_ERROR_STATUS, false) ∧
    processDeviceLogResponse [hmrStatusRule]
        (String.mk (STARTED_MESSAGE.toList ++ (litM ++ (H ++ ['.'])))) D plat st
      = (st, false) := by
  refine ⟨hmr_ingest_success D plat H st hH, ?_, ?_,
    hmr_ingest_failed D plat H st hH, hmr_ingest_checking D plat H st hH⟩
  · exact getKey_setKey_self st (D ++ String.mk H) HMR_SUCCESS_STATUS
  · exact pollLoop_reaches statusAt HMR_SUCCESS_STATUS k hbefore hafter
      (by decide) 40 0 (by omega)

/-- Witness for C6 at device "dev-1", hash "abc123", empty table, with the
Success status observable from the first poll on. -/
theorem c6_hmr_status_protocol_witness :
    processDeviceLogResponse [hmrStatusRule]
        (String.mk (SUCCESS_MESSAGE.toList ++ (litM ++ ("abc123".toList ++ ['.']))))
        "dev-1" none []
      = (setKey [] ("dev-1" ++ String.mk "abc123".toList) HMR_SUCCESS_STATUS,
         false) ∧
    getStatusByKey
        (setKey [] ("dev-1" ++ String.mk "abc123".toList) HMR_SUCCESS_STATUS)
        ("dev-1" ++ String.mk "abc123".toList) = some HMR_SUCCESS_STATUS ∧
    getHmrStatus (fun _ => some HMR_SUCCESS_STATUS) = some HMR_SUCCESS_STATUS ∧
    processDeviceLogResponse [hmrStatusRule]
        (String.mk (FAILED_MESSAGE.toList ++ (litM ++ ("abc123".toList ++ ['.']))))
        "dev-1" none []
      = (setKey [] ("dev-1" ++ String.mk "abc123".toList) HMR_ERROR_STATUS,
         false) ∧
    processDeviceLogResponse [hmrStatusRule]
        (String.mk (STARTED_MESSAGE.toList ++ (litM ++ ("abc123".toList ++ ['.']))))
        "dev-1" none []
      = ([], false) :=
  c6_hmr_status_protocol "dev-1" none "abc123".toList [] (by decide)
    (fun _ => some HMR_SUCCESS_STATUS) 0 (by omega)
    (fun t ht => absurd ht (by omega)) (fun _ _ => rfl)

/-! ## Claim C7 -/

/-- C7: when no terminal status is ever recorded for the polled key, the
wait resolves after the fixed retry budget — 41 poll ticks for the initial
`retryCount = 40` — with the null status, a value distinct from both the
Success and the Error status, rather than polling forever. -/
theorem c7_timeout_resolves_null (statusAt : Nat → Option Int)
    (h : ∀ t, statusAt t = none) :
    pollLoop statusAt 40 0 = (none, 41) ∧
    getHmrStatus statusAt = none ∧
    ¬ ((none : Option Int) = some HMR_SUCCESS_STATUS) ∧
    ¬ ((none : Option Int) = some HMR_ERROR_STATUS) := by
  have hp := pollLoop_all_none statusAt h 40 0
  refine ⟨hp, ?_, by decide, by decide⟩
  unfold getHmrStatus
  rw [hp]

/-- Witness for C7: the constantly-empty status stream. -/
theorem c7_timeout_resolves_null_witness :
    pollLoop (fun _ => none) 40 0 = (none, 41) ∧
    getHmrStatus (fun _ => none) = none ∧
    ¬ ((none : Option Int) = some HMR_SUCCESS_STATUS) ∧
    ¬ ((none : Option Int) = some HMR_ERROR_STATUS) :=
  c7_timeout_resolves_null (fun _ => none) (fun _ => rfl)

/-! ## Claim C10 -/

/-- C10: registering a parse rule under a name that is already registered
throws (the registration fails and, the throw happening before any
mutation, the rule table is untouched), and the previously registered
"hmrStatus" rule still dispatches: a success status line ingested through
the unchanged one-rule table records the Success status. -/
theorem c10_duplicate_rule_rejected (σ : Type) (rules : List (ParseRule σ))
    (r2 : ParseRule σ)
    (hdup : rules.any (fun r0 => r0.name = r2.name) = true)
    (D : String) (plat : Option String) (H : List Char) (st : HmrStatuses)
    (hH : ∀ c ∈ H, isClass2 c = true) :
    addParseRule rules r2 = none ∧
    processDeviceLogResponse [hmrStatusRule]
        (String.mk (SUCCESS_MESSAGE.toList ++ (litM ++ (H ++ ['.'])))) D plat st
      = (setKey st (D ++ String.mk H) HMR_SUCCESS_STATUS, false) := by
  constructor
  · simp [addParseRule, hdup]
  · exact hmr_ingest_success D plat H st hH

/-- Witness for C10: registering the "hmrStatus" rule a second time. -/
theorem c10_duplicate_rule_rejected_witness :
    addParseRule [hmrStatusRule] hmrStatusRule = none ∧
    processDeviceLogResponse [hmrStatusRule]
        (String.mk (SUCCESS_MESSAGE.toList ++ (litM ++ ("abc123".toList ++ ['.']))))
        "dev-1" none []
      = (setKey [] ("dev-1" ++ String.mk "abc123".toList) HMR_SUCCESS_STATUS,
         false) :=
  c10_duplicate_rule_rejected HmrStatuses [hmrStatusRule] hmrStatusRule
    (by decide) "dev-1" none "abc123".toList [] (by decide)

end NsCli
